import Mathlib

/-!
Shallow embedding of the sales-ingestion pipeline `project/ingest/run.py`.

The pipeline reads batch files from a drops directory, stamps provenance
columns, coerces and validates the five logical fields, partitions rows into a
clean set and a quarantine set, deduplicates the clean set on the natural key
`(fecha, id_cliente, id_producto)` keeping the last row after sorting by
`_ingest_ts`, derives `importe = unidades * precio_unitario`, persists the
clean set to a parquet file only when it is non-empty, and finally re-reads
that parquet file to render an aggregate report.

Modelling conventions:
- Machine floats (`pandas` float64 columns) are modelled by `ℚ`; all the
  arithmetic the pipeline performs on them (sums, products, one division,
  rounding via `.round(0)`) is exact on the values of interest.
- Null cells (`NaN`, `NaT`, `None`) are modelled by `Option`.
- The ISO-8601 UTC strings produced by `datetime.now(timezone.utc)` order
  lexicographically exactly as the instants they denote, so ingest timestamps
  are modelled by `ℕ`; the wall clock is an explicit parameter
  `clock : ℕ → ℕ` giving the value of the i-th `datetime.now` call of a run
  (the source calls `datetime.now` once per input file, inside the loop).
- `pandas.sort_values` is called with its default `kind` (quicksort), which
  is not a stable sort, so theorems about deduplication quantify over an
  arbitrary permutation of the input that is sorted by the key
  (`SortedByTs`); `sortByTs` (an insertion sort) is the deterministic
  representative used by the executable end-to-end model `run`.
- The parquet file on disk is modelled by `Option (List CRow)`: `none` when
  the file does not exist, `some rows` for its content; reading a parquet
  file back returns exactly the rows that were written.
- The SQLite sink (schema DDL, raw append, upserts, views) is opaque external
  SQL in the source and is not needed by any property below; it is omitted.
- The string parsers model `pd.to_datetime(errors := coerce)` restricted to
  ISO `yyyy-mm-dd` dates (the format of the repository data),
  `pd.to_numeric(errors := coerce)` restricted to plain signed decimal
  numerals, and `to_float_money` (Python `float` after replacing every comma
  by a dot). On every other input they return `none`, exactly as the
  `errors := coerce` / `try: ... except: return None` paths do.
-/

namespace Ventas

/-- Calendar date as (year, month, day), the value of a pandas `.dt.date` cell. -/
abbrev DateT := ℕ × ℕ × ℕ

/-- Row of an input batch file: the five logical columns, each possibly absent
(`None` both for a missing column and for a null cell), all read as text
(`dtype=str`). -/
structure FileRow where
  fecha : Option String
  id_cliente : Option String
  id_producto : Option String
  unidades : Option String
  precio_unitario : Option String
deriving DecidableEq

/-- RawRecord: a file row after the Reader stamped `_source_file` and
`_ingest_ts` on it. -/
structure RawRow where
  fecha : Option String
  id_cliente : Option String
  id_producto : Option String
  unidades : Option String
  precio_unitario : Option String
  source_file : String
  ingest_ts : ℕ
deriving DecidableEq

/-- CoercedRecord: the row after type coercion. `importe` is the derived
amount column, absent (`none`) until the Deduplicator computes it. -/
structure CRow where
  fecha : Option DateT
  id_cliente : Option String
  id_producto : Option String
  unidades : Option ℚ
  precio_unitario : Option ℚ
  importe : Option ℚ
  source_file : String
  ingest_ts : ℕ
deriving DecidableEq

/-- Value of a decimal digit character, `none` on a non-digit. -/
def digitVal (c : Char) : Option ℕ :=
  if c.isDigit then some (c.toNat - 48) else none

/-- Reads a digit string left to right, accumulating its value. -/
def parseNatAux (acc : ℕ) : List Char → Option ℕ
  | [] => some acc
  | c :: cs =>
    match digitVal c with
    | some d => parseNatAux (acc * 10 + d) cs
    | none => none

/-- Parses a non-empty all-digit string. -/
def parseNatStr (cs : List Char) : Option ℕ :=
  if cs = [] then none else parseNatAux 0 cs

/-- Splits a character list on a separator character. -/
def splitOnC (sep : Char) : List Char → List (List Char)
  | [] => [[]]
  | c :: cs =>
    let r := splitOnC sep cs
    if c = sep then [] :: r
    else
      match r with
      | [] => [[c]]
      | h :: t => (c :: h) :: t

/-- Models `pd.to_datetime(col, errors="coerce").dt.date` on an ISO
`yyyy-mm-dd` cell; any other shape coerces to null. -/
def parseDate (s : String) : Option DateT :=
  match splitOnC (Char.ofNat 45) s.data with
  | [y, m, d] =>
    match parseNatStr y, parseNatStr m, parseNatStr d with
    | some yv, some mv, some dv =>
      if 1 ≤ mv ∧ mv ≤ 12 ∧ 1 ≤ dv ∧ dv ≤ 31 then some (yv, mv, dv) else none
    | _, _, _ => none
  | _ => none

/-- Parses an unsigned decimal numeral, with an optional fractional part
separated by a dot; at least one digit must be present overall. -/
def parseUnsigned (cs : List Char) : Option ℚ :=
  match splitOnC (Char.ofNat 46) cs with
  | [i] => (parseNatStr i).map (fun n => (n : ℚ))
  | [i, f] =>
    if i.all Char.isDigit ∧ f.all Char.isDigit ∧ (i ≠ [] ∨ f ≠ []) then
      match parseNatAux 0 i, parseNatAux 0 f with
      | some ip, some fp => some ((ip : ℚ) + (fp : ℚ) / ((10 : ℚ) ^ f.length))
      | _, _ => none
    else none
  | _ => none

/-- Parses a signed decimal numeral. -/
def parseSigned (cs : List Char) : Option ℚ :=
  match cs with
  | c :: rest =>
    if c = Char.ofNat 45 then (parseUnsigned rest).map (fun q => -q)
    else if c = Char.ofNat 43 then parseUnsigned rest
    else parseUnsigned cs
  | [] => none

/-- Models `pd.to_numeric(col, errors="coerce")` on one cell. -/
def toNumeric (s : String) : Option ℚ :=
  parseSigned s.data

/-- Models `to_float_money`: replace every comma by a dot, then parse as a
float; on failure return null (`except: return None` in the source). -/
def toFloatMoney (s : String) : Option ℚ :=
  parseSigned (s.data.map (fun c => if c = Char.ofNat 44 then Char.ofNat 46 else c))

/-- Stamps one file row with `_source_file` and `_ingest_ts`, as the Reader
loop does (`df["_source_file"] = f.name; df["_ingest_ts"] = now()`). -/
def stampRow (name : String) (ts : ℕ) (f : FileRow) : RawRow :=
  { fecha := f.fecha
    id_cliente := f.id_cliente
    id_producto := f.id_producto
    unidades := f.unidades
    precio_unitario := f.precio_unitario
    source_file := name
    ingest_ts := ts }

/-- Models the Reader loop from file index `i` on: each iteration reads one
file, stamps its rows with the file name and with the timestamp of that
iteration's `datetime.now` call (`clock i`), and the per-file frames are
concatenated row-wise. -/
def readFrom (clock : ℕ → ℕ) : ℕ → List (String × List FileRow) → List RawRow
  | _, [] => []
  | i, (name, rows) :: fs => rows.map (stampRow name (clock i)) ++ readFrom clock (i + 1) fs

/-- Concatenated raw rows of a whole run (the Reader loop started at its
first `datetime.now` call). -/
def readAll (files : List (String × List FileRow)) (clock : ℕ → ℕ) : List RawRow :=
  readFrom clock 0 files

/-- Column set the source materializes when no input file is found. -/
def expectedCols : List String :=
  ["fecha", "id_cliente", "id_producto", "unidades", "precio_unitario",
   "_source_file", "_ingest_ts"]

/-- Raw frame: column list plus rows, the shape of `raw_df`. -/
structure RawFrame where
  cols : List String
  rows : List RawRow
deriving DecidableEq

/-- Models the construction of `raw_df`: concatenation of the per-file frames
when at least one file was found, and otherwise an explicit empty frame that
still carries the full expected column set. In the typed model every row
carries all seven columns, which reflects how `pd.concat` reconciles the
per-file column sets by null-filling. -/
def readRaw (files : List (String × List FileRow)) (clock : ℕ → ℕ) : RawFrame :=
  if files = [] then { cols := expectedCols, rows := [] }
  else { cols := expectedCols, rows := readAll files clock }

/-- Coerces one raw row, exactly as the cleaning block does column-wise:
`fecha` through the date coercion, `unidades` through `pd.to_numeric`,
`precio_unitario` through `to_float_money`, the two identifier columns passed
through unchanged. Null cells stay null on every path, so the function is
total. -/
def coerceRow (r : RawRow) : CRow :=
  { fecha := r.fecha.bind parseDate
    id_cliente := r.id_cliente
    id_producto := r.id_producto
    unidades := r.unidades.bind toNumeric
    precio_unitario := r.precio_unitario.bind toFloatMoney
    importe := none
    source_file := r.source_file
    ingest_ts := r.ingest_ts }

/-- Cell test `col.notna() & (col >= 0)` for a numeric column. -/
def okNonneg : Option ℚ → Bool
  | some x => decide (0 ≤ x)
  | none => false

/-- Cell test `col.notna() & (col != "")` for an identifier column. -/
def okStr : Option String → Bool
  | some s => decide (s ≠ "")
  | none => false

/-- Validity mask of the source: date present, quantity and unit price
present and non-negative, both identifiers present and non-empty. -/
def valid (r : CRow) : Bool :=
  r.fecha.isSome && okNonneg r.unidades && okNonneg r.precio_unitario &&
    okStr r.id_cliente && okStr r.id_producto

/-- Natural key of a row, the `drop_duplicates` subset
`["fecha", "id_cliente", "id_producto"]`. -/
def key (r : CRow) : Option DateT × Option String × Option String :=
  (r.fecha, r.id_cliente, r.id_producto)

/-- Models `drop_duplicates(subset=natural key, keep="last")`: a row survives
exactly when no row after it in the current order carries the same key; kept
rows stay in their relative order. -/
def dedupKeepLast : List CRow → List CRow
  | [] => []
  | r :: rs =>
    if rs.any (fun s => decide (key s = key r)) then dedupKeepLast rs
    else r :: dedupKeepLast rs

/-- Models the column assignment
`clean["importe"] = clean["unidades"] * clean["precio_unitario"]`; the
product of a null and anything is null, as in pandas. -/
def setImporte (r : CRow) : CRow :=
  { r with
    importe :=
      match r.unidades, r.precio_unitario with
      | some u, some p => some (u * p)
      | _, _ => none }

/-- Sortedness by ingest timestamp: what `sort_values("_ingest_ts")`
guarantees about its output. The default sort kind is quicksort, which is not
stable, so nothing beyond sortedness is guaranteed about the output order. -/
def SortedByTs (l : List CRow) : Prop :=
  l.Pairwise (fun a b => a.ingest_ts ≤ b.ingest_ts)

/-- Comparison used by the deterministic representative sort. -/
def tsLeB (a b : CRow) : Bool :=
  decide (a.ingest_ts ≤ b.ingest_ts)

/-- Inserts an element into a list sorted by the comparison `le`. -/
def insertBy {α : Type} (le : α → α → Bool) (x : α) : List α → List α
  | [] => [x]
  | y :: ys => if le x y then x :: y :: ys else y :: insertBy le x ys

/-- Insertion sort by the comparison `le`. -/
def sortBy {α : Type} (le : α → α → Bool) : List α → List α
  | [] => []
  | x :: xs => insertBy le x (sortBy le xs)

/-- Deterministic representative of `sort_values("_ingest_ts")` used by the
executable end-to-end model (an insertion sort; any ts-sorted permutation is
an admissible output of the quicksort the source calls). -/
def sortByTs (l : List CRow) : List CRow :=
  sortBy tsLeB l

/-- Deduplication stage: the source runs it only when the valid set is
non-empty (`if not clean.empty`), sorting by ingest timestamp, dropping
duplicate natural keys keeping the last row, and deriving `importe`. -/
def cleanStage (v : List CRow) : List CRow :=
  if v = [] then v
  else (dedupKeepLast (sortByTs v)).map setImporte

/-- Sum of the `importe` column, `clean_rep["importe"].sum()`. -/
def sumImporte (rows : List CRow) : ℚ :=
  (rows.map (fun r => r.importe.getD 0)).sum

/-- Adds one observation to a per-product accumulator. -/
def addProd (k : String) (v : ℚ) : List (String × ℚ) → List (String × ℚ)
  | [] => [(k, v)]
  | (q, s) :: g => if q = k then (q, s + v) :: g else (q, s) :: addProd k v g

/-- Models `clean_rep.groupby("id_producto").agg(importe=sum)`: one entry per
product with the summed `importe`; rows whose product is null are dropped, as
pandas `groupby` drops null group keys. -/
def productTotals : List CRow → List (String × ℚ)
  | [] => []
  | r :: rs =>
    match r.id_producto with
    | some k => addProd k (r.importe.getD 0) (productTotals rs)
    | none => productTotals rs

/-- Adds one observation to a per-day accumulator (sum and count). -/
def addDay (k : DateT) (v : ℚ) : List (DateT × ℚ × ℕ) → List (DateT × ℚ × ℕ)
  | [] => [(k, v, 1)]
  | (q, s, c) :: g =>
    if q = k then (q, s + v, c + 1) :: g else (q, s, c) :: addDay k v g

/-- Models `clean_rep.groupby("fecha").agg(importe_total=sum,
transacciones=count)`; null dates are dropped like null group keys. -/
def dayTotals : List CRow → List (DateT × ℚ × ℕ)
  | [] => []
  | r :: rs =>
    match r.fecha with
    | some k => addDay k (r.importe.getD 0) (dayTotals rs)
    | none => dayTotals rs

/-- Lexicographic comparison of dates, the order `pandas` compares date cells
with. -/
def dateLe (a b : DateT) : Bool :=
  if a.1 ≠ b.1 then decide (a.1 < b.1)
  else if a.2.1 ≠ b.2.1 then decide (a.2.1 < b.2.1)
  else decide (a.2.2 ≤ b.2.2)

/-- Minimum of the non-null date cells, `col.min()` with its null-skipping
semantics. -/
def minDateList : List DateT → Option DateT
  | [] => none
  | d :: ds =>
    match minDateList ds with
    | none => some d
    | some m => some (if dateLe d m then d else m)

/-- Maximum of the non-null date cells, `col.max()`. -/
def maxDateList : List DateT → Option DateT
  | [] => none
  | d :: ds =>
    match maxDateList ds with
    | none => some d
    | some m => some (if dateLe d m then m else d)

/-- Descending comparison on the summed `importe`, for
`sort_values("importe", ascending=False)`. -/
def impGeB (a b : String × ℚ) : Bool :=
  decide (b.2 ≤ a.2)

/-- Product ranking sorted by revenue, descending. -/
def sortDescImporte (g : List (String × ℚ)) : List (String × ℚ) :=
  sortBy impGeB g

/-- Round half to even on a rational, the rounding `numpy` applies for
`.round(0)`, followed by the exact `astype(int)`. -/
def rhe (x : ℚ) : ℤ :=
  if x - (x.floor : ℚ) < 1 / 2 then x.floor
  else if 1 / 2 < x - (x.floor : ℚ) then x.floor + 1
  else if x.floor % 2 = 0 then x.floor else x.floor + 1

/-- Models the `top` frame of the report: group by product, sort by revenue
descending, and attach `pct = (100*importe/total_imp).round(0).astype(int)`
where `total_imp = top["importe"].sum() or 1.0` — Python `or` replaces the
total by `1.0` exactly when it is `0.0`. -/
def pctTable (rows : List CRow) : List (String × ℚ × ℤ) :=
  let top := sortDescImporte (productTotals rows)
  let t := (top.map (fun p => p.2)).sum
  let ti := if t = 0 then (1 : ℚ) else t
  top.map (fun p => (p.1, p.2, rhe (100 * p.2 / ti)))

/-- Modelled from the spec (refinement comparison only, not from the source):
percentage share computed with the total revenue floored at a minimum of 1,
the literal reading of the sentence in section 4.5. -/
def specPctTable (rows : List CRow) : List (String × ℚ × ℤ) :=
  let top := sortDescImporte (productTotals rows)
  let t := (top.map (fun p => p.2)).sum
  let ti := max t 1
  top.map (fun p => (p.1, p.2, rhe (100 * p.2 / ti)))

/-- Data content of the rendered report document: every value interpolated
into the markdown text, in order. `none` in the `Option` fields renders as
the placeholder em dash, and an empty `top` or `by_day` renders as the
`(sin datos)` placeholder table. -/
structure Report where
  periodo_ini : Option DateT
  periodo_fin : Option DateT
  generado : ℕ
  ingresos : ℚ
  ticket : ℚ
  trans : ℕ
  top : List (String × ℚ × ℤ)
  by_day : List (DateT × ℚ × ℕ)
  producto_lider : Option String
  bronce : ℕ
  plata : ℕ
  cuarentena : ℕ
deriving DecidableEq

/-- Models the report stage: re-read the analytical store from disk
(`clean_rep`), compute the KPI block when it is non-empty, and otherwise fill
the zero-data placeholders; the quality section interpolates the in-memory
row counts `len(df)`, `len(clean)`, `len(quarantine)`. -/
def renderReport (store : Option (List CRow)) (renderTs : ℕ)
    (bronce plata cuarentena : ℕ) : Report :=
  let rows := store.getD []
  if rows = [] then
    { periodo_ini := none
      periodo_fin := none
      generado := renderTs
      ingresos := 0
      ticket := 0
      trans := 0
      top := []
      by_day := []
      producto_lider := none
      bronce := bronce
      plata := plata
      cuarentena := cuarentena }
  else
    { periodo_ini := minDateList (rows.filterMap (fun r => r.fecha))
      periodo_fin := maxDateList (rows.filterMap (fun r => r.fecha))
      generado := renderTs
      ingresos := sumImporte rows
      ticket := if 0 < rows.length then sumImporte rows / (rows.length : ℚ) else 0
      trans := rows.length
      top := pctTable rows
      by_day := dayTotals rows
      producto_lider := (pctTable rows).head?.map (fun e => e.1)
      bronce := bronce
      plata := plata
      cuarentena := cuarentena }

/-- Observable outcome of one run of the script. -/
structure RunResult where
  raw : List RawRow
  coerced : List CRow
  quarantine : List CRow
  clean : List CRow
  storeAfter : Option (List CRow)
  report : Report
deriving DecidableEq

/-- End-to-end model of one script execution. `prev` is the analytical-store
file state left by earlier runs (`none` when the file does not exist). The
parquet write is guarded by `if not clean.empty`, so an empty clean set
leaves the file untouched; the report stage then reads back whatever the file
holds (`if PARQUET_FILE.exists()`), and interpolates the in-memory counts
into the quality section. -/
def run (prev : Option (List CRow)) (files : List (String × List FileRow))
    (clock : ℕ → ℕ) (renderTs : ℕ) : RunResult :=
  let raw := readRaw files clock
  let coerced := raw.rows.map coerceRow
  let quarantine := coerced.filter (fun r => !valid r)
  let cl := cleanStage (coerced.filter valid)
  let store := if cl = [] then prev else some cl
  { raw := raw.rows
    coerced := coerced
    quarantine := quarantine
    clean := cl
    storeAfter := store
    report := renderReport store renderTs coerced.length cl.length quarantine.length }

/-- Concrete valid input row, the first row of the sample batch
`ventas_ejemplo.csv`. -/
def exValidFile : FileRow :=
  { fecha := some "2025-01-03"
    id_cliente := some "C001"
    id_producto := some "P10"
    unidades := some "2"
    precio_unitario := some "12.50" }

/-- Concrete invalid input row (unparsable price), the last row of the sample
batch. -/
def exInvalidFile : FileRow :=
  { fecha := some "2025-01-06"
    id_cliente := some "C004"
    id_producto := some "P99"
    unidades := some "2"
    precio_unitario := some "doce" }

/-- Run over one batch file holding the single valid sample row, against an
absent analytical store. -/
def runA : RunResult :=
  run none [("a.csv", [exValidFile])] id 9

/-- Follow-up run over one batch file holding only the invalid sample row,
against the analytical store left by `runA`, at the same render timestamp. -/
def runB : RunResult :=
  run runA.storeAfter [("b.csv", [exInvalidFile])] id 9

/-- Clean record persisted by `runA`, used as pre-existing analytical-store
content. -/
def storeRow : CRow :=
  { fecha := some (2025, 1, 3)
    id_cliente := some "C001"
    id_producto := some "P10"
    unidades := some 2
    precio_unitario := some (25 / 2)
    importe := some 25
    source_file := "a.csv"
    ingest_ts := 0 }

/-- Coerced valid row with ingest timestamp 3, one of a tied pair sharing a
natural key. -/
def rTieA : CRow :=
  { fecha := some (2025, 1, 5)
    id_cliente := some "C003"
    id_producto := some "P20"
    unidades := some 1
    precio_unitario := some 8
    importe := none
    source_file := "a.csv"
    ingest_ts := 3 }

/-- Second row of the tied pair: same natural key and same ingest timestamp
as `rTieA`, but arriving later (different quantity and source file). -/
def rTieB : CRow :=
  { fecha := some (2025, 1, 5)
    id_cliente := some "C003"
    id_producto := some "P20"
    unidades := some 2
    precio_unitario := some 8
    importe := none
    source_file := "b.csv"
    ingest_ts := 3 }

/-- Coerced valid row with the same natural key as `rLate` but an earlier
ingest timestamp. -/
def rEarly : CRow :=
  { fecha := some (2025, 1, 4)
    id_cliente := some "C002"
    id_producto := some "P10"
    unidades := some 1
    precio_unitario := some 5
    importe := none
    source_file := "a.csv"
    ingest_ts := 1 }

/-- Coerced valid row superseding `rEarly`: same natural key, later ingest
timestamp. -/
def rLate : CRow :=
  { fecha := some (2025, 1, 4)
    id_cliente := some "C002"
    id_producto := some "P10"
    unidades := some 3
    precio_unitario := some 5
    importe := none
    source_file := "b.csv"
    ingest_ts := 2 }

/-- Analytical-store row carrying revenue 1 for the given product. -/
def mkStoreRow (p : String) : CRow :=
  { fecha := some (2025, 1, 1)
    id_cliente := some "C001"
    id_producto := some p
    unidades := some 1
    precio_unitario := some 1
    importe := some 1
    source_file := "a.csv"
    ingest_ts := 0 }

/-- Analytical-store content with six products of equal revenue 1: every
percentage share rounds 100/6 up to 17, so the shares sum to 102. -/
def rows6 : List CRow :=
  (["P1", "P2", "P3", "P4", "P5", "P6"]).map mkStoreRow

/-- Analytical-store content whose total revenue is 1/2, strictly between 0
and 1: the source divides by 1/2 itself, while a divisor floored at 1 would
divide by 1. -/
def rowHalf : CRow :=
  { fecha := some (2025, 1, 1)
    id_cliente := some "C001"
    id_producto := some "P1"
    unidades := some 1
    precio_unitario := some (1 / 2)
    importe := some (1 / 2)
    source_file := "a.csv"
    ingest_ts := 0 }

/-! Helper lemmas about the insertion sort. -/

theorem insertBy_perm {α : Type} (le : α → α → Bool) (x : α) (l : List α) :
    (insertBy le x l).Perm (x :: l) := by
  induction l with
  | nil => exact List.Perm.refl _
  | cons y ys ih =>
    by_cases h : le x y = true
    · simp only [insertBy, if_pos h]
      exact List.Perm.refl _
    · simp only [insertBy, if_neg h]
      exact (ih.cons y).trans (List.Perm.swap x y ys)

theorem sortBy_perm {α : Type} (le : α → α → Bool) (l : List α) :
    (sortBy le l).Perm l := by
  induction l with
  | nil => exact List.Perm.refl _
  | cons x xs ih => exact (insertBy_perm le x (sortBy le xs)).trans (ih.cons x)

theorem pairwise_insertBy {α : Type} {P : α → α → Prop} {le : α → α → Bool}
    (hfalse : ∀ a b, le a b = false → P b a) (htrue : ∀ a b, le a b = true → P a b)
    (htrans : ∀ a b c, P a b → P b c → P a c) (x : α) (l : List α)
    (h : l.Pairwise P) : (insertBy le x l).Pairwise P := by
  induction l with
  | nil => simp [insertBy]
  | cons y ys ih =>
    rcases List.pairwise_cons.mp h with ⟨hy, hys⟩
    by_cases hc : le x y = true
    · simp only [insertBy, if_pos hc]
      refine List.pairwise_cons.mpr ⟨?_, h⟩
      intro z hz
      rcases List.mem_cons.mp hz with rfl | hz2
      · exact htrue _ _ hc
      · exact htrans _ _ _ (htrue _ _ hc) (hy z hz2)
    · simp only [insertBy, if_neg hc]
      refine List.pairwise_cons.mpr ⟨?_, ih hys⟩
      intro z hz
      rcases List.mem_cons.mp ((insertBy_perm le x ys).mem_iff.mp hz) with rfl | hz2
      · exact hfalse _ _ (Bool.eq_false_iff.mpr hc)
      · exact hy z hz2

theorem sortedByTs_sortByTs (l : List CRow) : SortedByTs (sortByTs l) := by
  unfold sortByTs SortedByTs
  induction l with
  | nil => simp [sortBy]
  | cons x xs ih =>
    refine pairwise_insertBy ?_ ?_ ?_ x (sortBy tsLeB xs) ih
    · intro a b hab
      have h2 : ¬ a.ingest_ts ≤ b.ingest_ts := by simpa [tsLeB] using hab
      omega
    · intro a b hab
      simpa [tsLeB] using hab
    · intro a b c h1 h2
      exact le_trans h1 h2

theorem sortByTs_mem (l : List CRow) (r : CRow) : r ∈ sortByTs l ↔ r ∈ l :=
  (sortBy_perm tsLeB l).mem_iff

/-! Helper lemmas about keep-last deduplication. -/

theorem mem_of_mem_dedupKeepLast {r : CRow} {l : List CRow}
    (hm : r ∈ dedupKeepLast l) : r ∈ l := by
  induction l with
  | nil => simp [dedupKeepLast] at hm
  | cons s ss ih =>
    by_cases h : ss.any (fun t => decide (key t = key s)) = true
    · rw [dedupKeepLast, if_pos h] at hm
      exact List.Mem.tail _ (ih hm)
    · rw [dedupKeepLast, if_neg h] at hm
      rcases List.mem_cons.mp hm with rfl | hm2
      · exact List.Mem.head _
      · exact List.Mem.tail _ (ih hm2)

theorem mem_dedupKeepLast_decomp {r : CRow} {l : List CRow}
    (hm : r ∈ dedupKeepLast l) :
    ∃ a b, l = a ++ r :: b ∧ ∀ s ∈ b, key s ≠ key r := by
  induction l with
  | nil => simp [dedupKeepLast] at hm
  | cons s ss ih =>
    by_cases h : ss.any (fun t => decide (key t = key s)) = true
    · rw [dedupKeepLast, if_pos h] at hm
      rcases ih hm with ⟨a, b, heq, hb⟩
      exact ⟨s :: a, b, by rw [heq]; rfl, hb⟩
    · rw [dedupKeepLast, if_neg h] at hm
      rcases List.mem_cons.mp hm with rfl | hm2
      · refine ⟨[], ss, rfl, ?_⟩
        intro t ht hkey
        exact h (List.any_eq_true.mpr ⟨t, ht, decide_eq_true hkey⟩)
      · rcases ih hm2 with ⟨a, b, heq, hb⟩
        exact ⟨s :: a, b, by rw [heq]; rfl, hb⟩

theorem key_covered (l : List CRow) :
    ∀ r ∈ l, ∃ s ∈ dedupKeepLast l, key s = key r := by
  induction l with
  | nil => intro r hr; cases hr
  | cons t rest ih =>
    intro r hr
    by_cases h : rest.any (fun u => decide (key u = key t)) = true
    · rw [dedupKeepLast, if_pos h]
      rcases List.mem_cons.mp hr with rfl | hr2
      · rcases List.any_eq_true.mp h with ⟨u, hu, hku⟩
        rcases ih u hu with ⟨s, hs, hks⟩
        exact ⟨s, hs, hks.trans (of_decide_eq_true hku)⟩
      · exact ih r hr2
    · rw [dedupKeepLast, if_neg h]
      rcases List.mem_cons.mp hr with rfl | hr2
      · exact ⟨r, List.Mem.head _, rfl⟩
      · rcases ih r hr2 with ⟨s, hs, hks⟩
        exact ⟨s, List.Mem.tail _ hs, hks⟩

theorem pairwise_key_dedupKeepLast (l : List CRow) :
    (dedupKeepLast l).Pairwise (fun a b => key a ≠ key b) := by
  induction l with
  | nil => simp [dedupKeepLast]
  | cons t rest ih =>
    by_cases h : rest.any (fun u => decide (key u = key t)) = true
    · rw [dedupKeepLast, if_pos h]
      exact ih
    · rw [dedupKeepLast, if_neg h]
      refine List.pairwise_cons.mpr ⟨?_, ih⟩
      intro s hs hkey
      exact h (List.any_eq_true.mpr
        ⟨s, mem_of_mem_dedupKeepLast hs, decide_eq_true hkey.symm⟩)

theorem dedupKeepLast_eq_self {l : List CRow}
    (h : l.Pairwise (fun a b => key a ≠ key b)) : dedupKeepLast l = l := by
  induction l with
  | nil => rfl
  | cons t rest ih =>
    rcases List.pairwise_cons.mp h with ⟨ht, hrest⟩
    have hany : ¬ rest.any (fun u => decide (key u = key t)) = true := by
      intro hc
      rcases List.any_eq_true.mp hc with ⟨u, hu, hku⟩
      exact ht u hu (of_decide_eq_true hku).symm
    rw [dedupKeepLast, if_neg hany, ih hrest]

/-! Helper lemmas about validity and the derived amount. -/

theorem length_filter_partition {α : Type} (p : α → Bool) (l : List α) :
    (l.filter p).length + (l.filter (fun a => !p a)).length = l.length := by
  induction l with
  | nil => rfl
  | cons x xs ih =>
    by_cases h : p x = true <;> simp [List.filter, h, ← ih] <;> omega

theorem okNonneg_iff (o : Option ℚ) :
    okNonneg o = true ↔ ∃ x, o = some x ∧ 0 ≤ x := by
  cases o <;> simp [okNonneg]

theorem okStr_iff (o : Option String) :
    okStr o = true ↔ ∃ s, o = some s ∧ s ≠ "" := by
  cases o <;> simp [okStr]

theorem valid_eq_true_iff (r : CRow) :
    valid r = true ↔
      r.fecha.isSome = true ∧ okNonneg r.unidades = true ∧
        okNonneg r.precio_unitario = true ∧ okStr r.id_cliente = true ∧
        okStr r.id_producto = true := by
  simp [valid, Bool.and_eq_true, and_assoc]

theorem key_setImporte (r : CRow) : key (setImporte r) = key r := rfl

theorem setImporte_setImporte (r : CRow) :
    setImporte (setImporte r) = setImporte r := rfl

/-! Helper lemmas about the rounding of percentage shares. -/

theorem ratFloor_eq_intFloor (q : ℚ) : q.floor = ⌊q⌋ :=
  (Rat.floor_def' q).trans Rat.floor_def.symm

theorem abs_rhe_sub_le (x : ℚ) : |((rhe x : ℤ) : ℚ) - x| ≤ 1 / 2 := by
  have h1 : ((⌊x⌋ : ℤ) : ℚ) ≤ x := Int.floor_le x
  have h2 : x < ⌊x⌋ + 1 := Int.lt_floor_add_one x
  unfold rhe
  rw [ratFloor_eq_intFloor]
  split_ifs with ha hb hc <;>
    · apply abs_le.mpr
      constructor <;> push_cast at * <;> linarith

theorem sum_map_rhe_sub_le (l : List ℚ) :
    |(l.map (fun x => ((rhe x : ℤ) : ℚ))).sum - l.sum| ≤ (l.length : ℚ) / 2 := by
  induction l with
  | nil => simp
  | cons x xs ih =>
    simp only [List.map_cons, List.sum_cons, List.length_cons]
    have h1 := abs_rhe_sub_le x
    have h3 :
        ((rhe x : ℤ) : ℚ) + (xs.map (fun x => ((rhe x : ℤ) : ℚ))).sum - (x + xs.sum) =
          (((rhe x : ℤ) : ℚ) - x) +
            ((xs.map (fun x => ((rhe x : ℤ) : ℚ))).sum - xs.sum) := by ring
    rw [h3]
    refine le_trans (abs_add _ _) ?_
    push_cast
    linarith

theorem sum_snd_addProd (k : String) (v : ℚ) (g : List (String × ℚ)) :
    ((addProd k v g).map (fun p => p.2)).sum = v + (g.map (fun p => p.2)).sum := by
  induction g with
  | nil => simp [addProd]
  | cons q g ih =>
    obtain ⟨qk, qs⟩ := q
    by_cases h : qk = k
    · simp only [addProd, if_pos h, List.map_cons, List.sum_cons]
      ring
    · simp only [addProd, if_neg h, List.map_cons, List.sum_cons, ih]
      ring

theorem sum_snd_sortDesc (g : List (String × ℚ)) :
    ((sortDescImporte g).map (fun p => p.2)).sum = (g.map (fun p => p.2)).sum :=
  ((sortBy_perm impGeB g).map (fun p => p.2)).sum_eq

/-! Claim theorems. -/

/-- C1: coercion is total — every raw row yields exactly one coerced row, so
the coerced collection has the same size as the raw one — and the validity
mask partitions the coerced collection into the valid and the invalid set
with no loss and no overlap, so the two sizes add up to the coerced (= raw)
size. -/
theorem c1_coercion_total_partition (raws : List RawRow) :
    (raws.map coerceRow).length = raws.length ∧
      ((raws.map coerceRow).filter valid).length +
          ((raws.map coerceRow).filter (fun r => !valid r)).length =
        (raws.map coerceRow).length ∧
      ∀ r : CRow, r ∈ (raws.map coerceRow).filter valid →
        r ∉ (raws.map coerceRow).filter (fun r => !valid r) := by
  refine ⟨by simp, length_filter_partition _ _, ?_⟩
  intro r h1 h2
  have hv := (List.mem_filter.mp h1).2
  have hnv := (List.mem_filter.mp h2).2
  rw [hv] at hnv
  simp at hnv

/-- C2 (amended): after sorting the valid set by ingest timestamp — in any
order the unstable default sort may produce — keep-last deduplication never
keeps a row when another row with the same natural key and a strictly later
ingest timestamp exists, and the surviving row of that key carries an ingest
timestamp at least as late as the later of the two. The original claim's
tie-breaking clause is dropped: the source calls `sort_values` with its
default quicksort, which is not stable, so equal-timestamp ties have no
guaranteed winner (see the counterexample). -/
theorem c2_later_timestamp_wins (v l2 : List CRow) (hp : l2.Perm v)
    (hs : SortedByTs l2) (r1 r2 : CRow) (h1 : r1 ∈ v) (h2 : r2 ∈ v)
    (hk : key r1 = key r2) (ht : r1.ingest_ts < r2.ingest_ts) :
    r1 ∉ dedupKeepLast l2 ∧
      ∃ s ∈ dedupKeepLast l2, key s = key r1 ∧ r2.ingest_ts ≤ s.ingest_ts := by
  constructor
  · intro hmem
    rcases mem_dedupKeepLast_decomp hmem with ⟨a, b, heq, hb⟩
    have h2m : r2 ∈ l2 := hp.mem_iff.mpr h2
    rw [heq] at h2m hs
    rcases List.mem_append.mp h2m with h2a | h2c
    · rcases List.pairwise_append.mp hs with ⟨_, _, hcross⟩
      have := hcross r2 h2a r1 (List.Mem.head _)
      omega
    · rcases List.mem_cons.mp h2c with rfl | h2b
      · omega
      · exact hb r2 h2b hk.symm
  · have h2m : r2 ∈ l2 := hp.mem_iff.mpr h2
    rcases key_covered l2 r2 h2m with ⟨s, hsm, hks⟩
    refine ⟨s, hsm, hks.trans hk.symm, ?_⟩
    rcases mem_dedupKeepLast_decomp hsm with ⟨a, b, heq, hb⟩
    rw [heq] at h2m hs
    rcases List.mem_append.mp h2m with h2a | h2c
    · rcases List.pairwise_append.mp hs with ⟨_, _, hcross⟩
      exact hcross r2 h2a s (List.Mem.head _)
    · rcases List.mem_cons.mp h2c with rfl | h2b
      · exact le_refl _
      · exact absurd hks.symm (hb r2 h2b)

/-- C4: the deduplication step is idempotent — re-sorting its own output in
any admissible order, deduplicating again and recomputing the amount yields
the same records (as a multiset). -/
theorem c4_dedup_idempotent (v l2 c2 : List CRow) (hp : l2.Perm v)
    (hs : SortedByTs l2) (hp2 : c2.Perm ((dedupKeepLast l2).map setImporte))
    (hs2 : SortedByTs c2) :
    ((dedupKeepLast c2).map setImporte).Perm ((dedupKeepLast l2).map setImporte) := by
  have hpw : ((dedupKeepLast l2).map setImporte).Pairwise (fun a b => key a ≠ key b) := by
    rw [List.pairwise_map]
    simpa [key_setImporte] using pairwise_key_dedupKeepLast l2
  have hpw2 : c2.Pairwise (fun a b => key a ≠ key b) :=
    (hp2.pairwise_iff (fun h => Ne.symm h)).mpr hpw
  have hded : dedupKeepLast c2 = c2 := dedupKeepLast_eq_self hpw2
  rw [hded]
  have hfix : ∀ x ∈ c2, setImporte x = id x := by
    intro x hx
    rcases List.mem_map.mp (hp2.mem_iff.mp hx) with ⟨y, _, rfl⟩
    exact setImporte_setImporte y
  rw [List.map_congr_left hfix, List.map_id]
  exact hp2

/-- C3: every record produced by the deduplication stage of the valid set
carries `importe = unidades * precio_unitario`, with both factors present and
non-negative, hence a non-negative amount. -/
theorem c3_amount_product_nonneg (l : List CRow) (r : CRow)
    (hr : r ∈ cleanStage (l.filter valid)) :
    ∃ u p : ℚ, r.unidades = some u ∧ r.precio_unitario = some p ∧
      0 ≤ u ∧ 0 ≤ p ∧ r.importe = some (u * p) ∧ 0 ≤ u * p := by
  unfold cleanStage at hr
  by_cases hemp : l.filter valid = []
  · rw [if_pos hemp, hemp] at hr
    cases hr
  · rw [if_neg hemp] at hr
    rcases List.mem_map.mp hr with ⟨r0, hr0, rfl⟩
    have hmem : r0 ∈ l.filter valid :=
      (sortByTs_mem _ _).mp (mem_of_mem_dedupKeepLast hr0)
    have hv : valid r0 = true := (List.mem_filter.mp hmem).2
    rcases (valid_eq_true_iff r0).mp hv with ⟨_, hu, hpz, _, _⟩
    rcases (okNonneg_iff _).mp hu with ⟨u, hu1, hu2⟩
    rcases (okNonneg_iff _).mp hpz with ⟨p, hp1, hp2⟩
    refine ⟨u, p, ?_, ?_, hu2, hp2, ?_, mul_nonneg hu2 hp2⟩
    · simpa [setImporte] using hu1
    · simpa [setImporte] using hp1
    · simp [setImporte, hu1, hp1]

theorem readFrom_mem (clock : ℕ → ℕ) (fs : List (String × List FileRow)) :
    ∀ j i name rows, fs[i]? = some (name, rows) →
      ∀ f ∈ rows, stampRow name (clock (j + i)) f ∈ readFrom clock j fs := by
  induction fs with
  | nil => intro j i name rows h; simp at h
  | cons hd tl ih =>
    intro j i name rows h f hf
    cases i with
    | zero =>
      rw [List.getElem?_cons_zero] at h
      cases h
      simp only [readFrom, Nat.add_zero]
      exact List.mem_append_left _ (List.mem_map_of_mem _ hf)
    | succ i2 =>
      rw [List.getElem?_cons_succ] at h
      have heq : j + (i2 + 1) = (j + 1) + i2 := by omega
      rw [heq]
      exact List.mem_append_right _ (ih (j + 1) i2 name rows h f hf)

/-- C5 (amended): each input file is stamped with the timestamp taken by the
`datetime.now` call of its own loop iteration, so all raw records of one file
share one ingest timestamp — but the call happens once per file, inside the
loop, so records of different files in the same run may carry different
timestamps (see the counterexample). -/
theorem c5_per_file_timestamp (files : List (String × List FileRow))
    (clock : ℕ → ℕ) (i : ℕ) (name : String) (rows : List FileRow)
    (hf : files[i]? = some (name, rows)) (f : FileRow) (hrow : f ∈ rows) :
    stampRow name (clock i) f ∈ readAll files clock ∧
      (stampRow name (clock i) f).ingest_ts = clock i := by
  have h := readFrom_mem clock files 0 i name rows hf f hrow
  rw [Nat.zero_add] at h
  exact ⟨h, rfl⟩

/-- C6 (amended): every report field other than the three quality counts is a
pure function of the re-read analytical store and the render timestamp; the
quality section's bronze, silver and quarantine counts come from the
in-memory collections instead (see the counterexample). -/
theorem c6_report_pure_except_counts (s : Option (List CRow))
    (ts b1 p1 q1 b2 p2 q2 : ℕ) :
    (renderReport s ts b1 p1 q1).periodo_ini = (renderReport s ts b2 p2 q2).periodo_ini ∧
    (renderReport s ts b1 p1 q1).periodo_fin = (renderReport s ts b2 p2 q2).periodo_fin ∧
    (renderReport s ts b1 p1 q1).generado = (renderReport s ts b2 p2 q2).generado ∧
    (renderReport s ts b1 p1 q1).ingresos = (renderReport s ts b2 p2 q2).ingresos ∧
    (renderReport s ts b1 p1 q1).ticket = (renderReport s ts b2 p2 q2).ticket ∧
    (renderReport s ts b1 p1 q1).trans = (renderReport s ts b2 p2 q2).trans ∧
    (renderReport s ts b1 p1 q1).top = (renderReport s ts b2 p2 q2).top ∧
    (renderReport s ts b1 p1 q1).by_day = (renderReport s ts b2 p2 q2).by_day ∧
    (renderReport s ts b1 p1 q1).producto_lider =
      (renderReport s ts b2 p2 q2).producto_lider := by
  by_cases h : (s.getD []) = [] <;> simp [renderReport, h]

/-- C7 (amended): on an empty input directory the Reader yields the empty
collection still carrying the full expected column set, and — provided no
analytical-store file was left behind by an earlier run — the run completes
with a report showing zero revenue, zero transactions and the no-data
placeholders. The proviso is forced by the counterexample: a stale store
file from a previous run is re-read and reported instead. -/
theorem c7_empty_input_report (clock : ℕ → ℕ) (ts : ℕ) :
    readRaw [] clock = { cols := expectedCols, rows := [] } ∧
      (run none [] clock ts).report.ingresos = 0 ∧
      (run none [] clock ts).report.trans = 0 ∧
      (run none [] clock ts).report.ticket = 0 ∧
      (run none [] clock ts).report.top = [] ∧
      (run none [] clock ts).report.by_day = [] ∧
      (run none [] clock ts).report.producto_lider = none ∧
      (run none [] clock ts).report.periodo_ini = none ∧
      (run none [] clock ts).report.periodo_fin = none :=
  ⟨rfl, rfl, rfl, rfl, rfl, rfl, rfl, rfl, rfl⟩

theorem renderReport_trans (s : Option (List CRow)) (ts b p q : ℕ) :
    (renderReport s ts b p q).trans = (s.getD []).length := by
  by_cases h : (s.getD []) = [] <;> simp [renderReport, h]

theorem renderReport_ingresos (s : Option (List CRow)) (ts b p q : ℕ) :
    (renderReport s ts b p q).ingresos = sumImporte (s.getD []) := by
  by_cases h : (s.getD []) = [] <;> simp [renderReport, h, sumImporte]

/-- C10: when the run's deduplicated clean set is empty the parquet write is
skipped, so the analytical-store file keeps whatever an earlier run
persisted, and the report stage reads back and reports exactly that retained
content. -/
theorem c10_empty_clean_preserves_store (prev : Option (List CRow))
    (files : List (String × List FileRow)) (clock : ℕ → ℕ) (ts : ℕ)
    (h : cleanStage (((readRaw files clock).rows.map coerceRow).filter valid) = []) :
    (run prev files clock ts).storeAfter = prev ∧
      (run prev files clock ts).report =
        renderReport prev ts ((readRaw files clock).rows.map coerceRow).length 0
          (((readRaw files clock).rows.map coerceRow).filter (fun r => !valid r)).length ∧
      (run prev files clock ts).report.trans = (prev.getD []).length ∧
      (run prev files clock ts).report.ingresos = sumImporte (prev.getD []) := by
  have h1 : (run prev files clock ts).storeAfter = prev := by
    simp [run, h]
  have h2 : (run prev files clock ts).report =
      renderReport prev ts ((readRaw files clock).rows.map coerceRow).length 0
        (((readRaw files clock).rows.map coerceRow).filter (fun r => !valid r)).length := by
    simp [run, h]
  refine ⟨h1, h2, ?_, ?_⟩
  · rw [h2, renderReport_trans]
  · rw [h2, renderReport_ingresos]

theorem pctTable_eq (rows : List CRow) :
    pctTable rows = (sortDescImporte (productTotals rows)).map
      (fun p2 => (p2.1, p2.2, rhe (100 * p2.2 /
        (if ((sortDescImporte (productTotals rows)).map (fun x => x.2)).sum = 0
          then (1 : ℚ)
          else ((sortDescImporte (productTotals rows)).map (fun x => x.2)).sum)))) :=
  rfl

/-- C8 (amended): when the ranked total revenue is non-zero, the integer
percentage shares of the product ranking sum to 100 up to half a unit per
ranked product — each share is within 1/2 of its exact value. The original
bound of plus or minus 1 holds only for rankings of at most two products and
fails in general (see the counterexample with six products summing to
102). -/
theorem c8_pct_sum_bound (rows : List CRow) (ts b p q : ℕ) (hrows : rows ≠ [])
    (h : ((productTotals rows).map (fun e => e.2)).sum ≠ 0) :
    |(((renderReport (some rows) ts b p q).top).map (fun e => (e.2.2 : ℚ))).sum - 100| ≤
      (((renderReport (some rows) ts b p q).top).length : ℚ) / 2 := by
  have htop : (renderReport (some rows) ts b p q).top = pctTable rows := by
    simp [renderReport, hrows]
  have htne : ((sortDescImporte (productTotals rows)).map (fun x => x.2)).sum ≠ 0 := by
    rw [sum_snd_sortDesc]
    exact h
  rw [htop, pctTable_eq, if_neg htne]
  revert htne
  generalize sortDescImporte (productTotals rows) = G2
  intro htne
  set T := (List.map (fun x => x.2) G2).sum with hT
  have h1 : (G2.map (fun p2 => (p2.1, p2.2, rhe (100 * p2.2 / T)))).map
        (fun e => (e.2.2 : ℚ)) =
      (G2.map (fun p2 => 100 * p2.2 / T)).map (fun x => ((rhe x : ℤ) : ℚ)) := by
    rw [List.map_map, List.map_map]
    rfl
  rw [h1, List.length_map]
  have h3 : ∀ p2 ∈ G2, 100 * p2.2 / T = 100 / T * p2.2 := by
    intro p2 _
    ring
  have h4 : (G2.map (fun p2 => 100 * p2.2 / T)).sum = 100 := by
    rw [List.map_congr_left h3, List.sum_map_mul_left, ← hT, div_mul_cancel₀]
    exact htne
  have h5 := sum_map_rhe_sub_le (G2.map (fun p2 => 100 * p2.2 / T))
  rw [h4] at h5
  simpa [List.length_map] using h5

/-- C9 (amended): every entry of the product ranking carries the percentage
share round(100 × product revenue / divisor), where the divisor is the ranked
total revenue with the value 1 substituted exactly when that total is 0 — not
a floor at 1 — and the divisor is never zero, so the division never faults.
The original claim's reading of the divisor as max(total, 1) fails for totals
strictly between 0 and 1 (see the counterexample). -/
theorem c9_pct_formula (rows : List CRow) (ts b p q : ℕ) (e : String × ℚ × ℤ)
    (he : e ∈ (renderReport (some rows) ts b p q).top) :
    (if ((sortDescImporte (productTotals rows)).map (fun x => x.2)).sum = 0 then (1 : ℚ)
        else ((sortDescImporte (productTotals rows)).map (fun x => x.2)).sum) ≠ 0 ∧
      e.2.2 = rhe (100 * e.2.1 /
        (if ((sortDescImporte (productTotals rows)).map (fun x => x.2)).sum = 0 then (1 : ℚ)
          else ((sortDescImporte (productTotals rows)).map (fun x => x.2)).sum)) := by
  constructor
  · split_ifs with h0
    · exact one_ne_zero
    · exact h0
  · by_cases hrows : rows = []
    · subst hrows
      simp [renderReport] at he
    · have htop : (renderReport (some rows) ts b p q).top = pctTable rows := by
        simp [renderReport, hrows]
      rw [htop, pctTable_eq] at he
      rcases List.mem_map.mp he with ⟨p2, _, rfl⟩
      rfl


/-! Witnesses and counterexamples evaluated on concrete inputs. The
arithmetic of `ℚ` is made reducible here so that the kernel can evaluate the
pipeline on the concrete data. -/

section ConcreteEvaluation

attribute [local semireducible] Rat.add Rat.mul Rat.sub Rat.inv

/-- Witness for C1 at the sample valid row: it lands in the valid set and,
by the theorem, not in the quarantine set. -/
theorem c1_coercion_total_partition_witness :
    coerceRow (stampRow "a.csv" 0 exValidFile) ∈
        (([stampRow "a.csv" 0 exValidFile]).map coerceRow).filter valid ∧
      coerceRow (stampRow "a.csv" 0 exValidFile) ∉
        (([stampRow "a.csv" 0 exValidFile]).map coerceRow).filter (fun r => !valid r) :=
  ⟨by decide,
    (c1_coercion_total_partition [stampRow "a.csv" 0 exValidFile]).2.2 _ (by decide)⟩

/-- Witness for C2 (amended) at two concrete rows with the same natural key
and timestamps 1 and 2: the earlier row is dropped and the later survives. -/
theorem c2_later_timestamp_wins_witness :
    rEarly ∉ dedupKeepLast [rEarly, rLate] ∧
      ∃ s ∈ dedupKeepLast [rEarly, rLate],
        key s = key rEarly ∧ rLate.ingest_ts ≤ s.ingest_ts :=
  c2_later_timestamp_wins [rEarly, rLate] [rEarly, rLate] (List.Perm.refl _)
    (by simp [SortedByTs, rEarly, rLate]) rEarly rLate (List.Mem.head _)
    (List.Mem.tail _ (List.Mem.head _)) (by decide) (by decide)

/-- Counterexample for C2 as stated: `rTieA` and `rTieB` share natural key
and ingest timestamp, with `rTieB` arriving later (arrival order
`[rTieA, rTieB]`). The list `[rTieB, rTieA]` is a permutation of the arrival
order that is sorted by ingest timestamp, hence an admissible output of the
unstable default sort; on it, keep-last deduplication keeps the
earlier-arriving `rTieA` and drops the later-arriving `rTieB`, refuting the
claim that the later-arriving row wins equal-timestamp ties. -/
theorem c2_tie_break_counterexample :
    ([rTieB, rTieA]).Perm [rTieA, rTieB] ∧ SortedByTs [rTieB, rTieA] ∧
      key rTieA = key rTieB ∧ rTieA.ingest_ts = rTieB.ingest_ts ∧ rTieA ≠ rTieB ∧
      dedupKeepLast [rTieB, rTieA] = [rTieA] ∧
      rTieB ∉ dedupKeepLast [rTieB, rTieA] := by
  refine ⟨List.Perm.swap rTieA rTieB [], ?_, by decide, by decide, by decide,
    by decide, by decide⟩
  simp [SortedByTs, rTieA, rTieB]

/-- Witness for C4 at a concrete two-row valid set with a shared natural
key. -/
theorem c4_dedup_idempotent_witness :
    ((dedupKeepLast ((dedupKeepLast [rEarly, rLate]).map setImporte)).map
        setImporte).Perm ((dedupKeepLast [rEarly, rLate]).map setImporte) :=
  c4_dedup_idempotent [rEarly, rLate] [rEarly, rLate]
    ((dedupKeepLast [rEarly, rLate]).map setImporte) (List.Perm.refl _)
    (by simp [SortedByTs, rEarly, rLate]) (List.Perm.refl _)
    (by simp [dedupKeepLast, setImporte, SortedByTs, rEarly, rLate, key])

/-- Witness for C3 at the sample valid row: quantity 2, unit price 25/2,
amount 25. -/
theorem c3_amount_product_nonneg_witness :
    ∃ u p : ℚ,
      (setImporte (coerceRow (stampRow "a.csv" 0 exValidFile))).unidades = some u ∧
      (setImporte (coerceRow (stampRow "a.csv" 0 exValidFile))).precio_unitario = some p ∧
      0 ≤ u ∧ 0 ≤ p ∧
      (setImporte (coerceRow (stampRow "a.csv" 0 exValidFile))).importe = some (u * p) ∧
      0 ≤ u * p :=
  c3_amount_product_nonneg [coerceRow (stampRow "a.csv" 0 exValidFile)] _ (by decide)

/-- Witness for C5 (amended) at the second of two concrete batch files. -/
theorem c5_per_file_timestamp_witness :
    stampRow "b.csv" 1 exInvalidFile ∈
        readAll [("a.csv", [exValidFile]), ("b.csv", [exInvalidFile])] id ∧
      (stampRow "b.csv" 1 exInvalidFile).ingest_ts = 1 :=
  c5_per_file_timestamp [("a.csv", [exValidFile]), ("b.csv", [exInvalidFile])] id 1
    "b.csv" [exInvalidFile] (by decide) exInvalidFile (by decide)

/-- Counterexample for C5 as stated: with two input files and a clock whose
successive readings are 0 and 1 — nothing in the source constrains two
`datetime.now` calls to coincide — the Reader emits records with two
different ingest timestamps within a single run. -/
theorem c5_single_instant_counterexample :
    ¬ (∀ r ∈ readAll [("a.csv", [exValidFile]), ("b.csv", [exInvalidFile])] id,
        ∀ r2 ∈ readAll [("a.csv", [exValidFile]), ("b.csv", [exInvalidFile])] id,
          r.ingest_ts = r2.ingest_ts) := by
  decide

/-- Counterexample for C6 as stated: `runB` re-reads exactly the
analytical-store content `runA` wrote (its own clean set was empty, so the
file was left untouched) and renders at the same timestamp, yet the two
rendered reports differ, because the quality section interpolates the
in-memory clean and quarantine counts of each run. -/
theorem c6_purity_counterexample :
    runB.storeAfter = runA.storeAfter ∧
      runA.report.generado = runB.report.generado ∧
      runA.report.ingresos = runB.report.ingresos ∧
      runA.report.plata = 1 ∧ runB.report.plata = 0 ∧
      runA.report.cuarentena = 0 ∧ runB.report.cuarentena = 1 ∧
      runA.report ≠ runB.report := by
  decide

/-- Counterexample for C7 as stated: an empty input directory with an
analytical-store file left by an earlier run renders that file's data — 25
of revenue over one transaction — not the zero-revenue no-data report. -/
theorem c7_stale_store_counterexample :
    (run (some [storeRow]) [] id 3).report.ingresos = 25 ∧
      (run (some [storeRow]) [] id 3).report.trans = 1 ∧
      ¬ (run (some [storeRow]) [] id 3).report.ingresos = 0 := by
  decide

/-- Witness for C10: a run over one all-invalid batch against a store holding
one record keeps that record and reports its revenue. -/
theorem c10_empty_clean_preserves_store_witness :
    cleanStage ((((readRaw [("b.csv", [exInvalidFile])] id).rows.map
        coerceRow).filter valid)) = [] ∧
      (run (some [storeRow]) [("b.csv", [exInvalidFile])] id 3).storeAfter =
        some [storeRow] :=
  ⟨by decide,
    (c10_empty_clean_preserves_store (some [storeRow]) [("b.csv", [exInvalidFile])]
      id 3 (by decide)).1⟩

/-- Witness for C8 (amended) at the six-product store: the shares sum to 102
and 102 is within 6/2 of 100. -/
theorem c8_pct_sum_bound_witness :
    |(((renderReport (some rows6) 0 6 6 0).top).map (fun e => (e.2.2 : ℚ))).sum - 100| ≤
      (((renderReport (some rows6) 0 6 6 0).top).length : ℚ) / 2 :=
  c8_pct_sum_bound rows6 0 6 6 0 (by decide) (by decide)

/-- Counterexample for C8 as stated: six products of equal revenue each get
share round(100/6) = 17, so the shares sum to 102, which is not within plus
or minus 1 of 100. -/
theorem c8_plus_minus_one_counterexample :
    ((productTotals rows6).map (fun e => e.2)).sum = 6 ∧
      ((renderReport (some rows6) 0 6 6 0).top).map (fun e => e.2.2) =
        [17, 17, 17, 17, 17, 17] ∧
      (((renderReport (some rows6) 0 6 6 0).top).map (fun e => e.2.2)).sum = 102 ∧
      ¬ (((renderReport (some rows6) 0 6 6 0).top).map (fun e => e.2.2)).sum ≤ 100 + 1 := by
  decide

/-- Witness for C9 (amended) at the store with total revenue 1/2: the single
share is round(100 × (1/2) / (1/2)) = 100. -/
theorem c9_pct_formula_witness :
    (if ((sortDescImporte (productTotals [rowHalf])).map (fun x => x.2)).sum = 0
        then (1 : ℚ)
        else ((sortDescImporte (productTotals [rowHalf])).map (fun x => x.2)).sum) ≠ 0 ∧
      ((("P1", 1 / 2, 100) : String × ℚ × ℤ)).2.2 = rhe (100 * ((("P1", 1 / 2, 100) : String × ℚ × ℤ)).2.1 /
        (if ((sortDescImporte (productTotals [rowHalf])).map (fun x => x.2)).sum = 0
          then (1 : ℚ)
          else ((sortDescImporte (productTotals [rowHalf])).map (fun x => x.2)).sum)) :=
  c9_pct_formula [rowHalf] 0 1 1 0 ("P1", 1 / 2, 100) (by decide)

/-- Counterexample for C9 as stated: with total revenue 1/2 the source
divides by 1/2 itself (Python `or` only replaces an exact 0.0), giving share
100, while a divisor floored at a minimum of 1 — the claim's formula,
rendered by `specPctTable` — would give share 50. -/
theorem c9_floor_counterexample :
    pctTable [rowHalf] = [("P1", 1 / 2, 100)] ∧
      specPctTable [rowHalf] = [("P1", 1 / 2, 50)] ∧
      pctTable [rowHalf] ≠ specPctTable [rowHalf] := by
  decide

end ConcreteEvaluation

end Ventas
